import Mathlib

/-!
Verification of the game-session orchestration layer of the ic-chess backend
(`src/ic-chess-backend/src/lib.rs`).

The chess rules engine (shakmaty), SHA-256, the caller-identity resolver and
the clock are external collaborators; they are abstracted as parameters
(`Engine`, `hashToken`, `who`, `now`).  Everything else — the session record,
status evaluation, the coordinate-move grammar, the UCI-then-SAN fallback,
seat claiming, move application and resignation — is translated directly
from the Rust source.

Caller-supplied move strings are modelled as their UTF-8 byte sequences
(`ByteStr`), because the Rust code indexes and slices them by byte position
(`mv.len()`, `&mv[0..2]`, …), and such a slice panics when an index is not a
character boundary.  `PanicOr` makes that panic path explicit.
-/

namespace ICChess

/-- UTF-8 bytes of a Rust `String`/`str`. -/
abbrev ByteStr := List Nat

/-- A 32-byte SHA-256 digest, as stored in `white_token_hash`/`black_token_hash`. -/
abbrev HashVal := List Nat

/-- Result of a Rust computation that can panic (trap) instead of returning. -/
inductive PanicOr (α : Type) : Type
  | panics : PanicOr α
  | ok : α → PanicOr α
deriving DecidableEq, Repr

/-- Chess piece roles (shakmaty `Role`), used for promotion pieces. -/
inductive Role : Type
  | pawn | knight | bishop | rook | queen | king
deriving DecidableEq, Repr

/-- `GameStatus` from the source, field for field. -/
inductive GameStatus : Type
  | Ongoing : GameStatus
  | Checkmate : (winner_white : Bool) → GameStatus
  | Stalemate : GameStatus
  | Draw : (reason : String) → GameStatus
  | Resigned : (winner_white : Bool) → GameStatus
deriving DecidableEq, Repr

/-- `matches!(status, GameStatus::Ongoing)`. -/
def GameStatus.isOngoing : GameStatus → Bool
  | .Ongoing => true
  | _ => false

/-- A terminal status: any status other than `Ongoing`
(`Checkmate`, `Stalemate`, `Draw`, `Resigned`). -/
def GameStatus.isTerminal : GameStatus → Bool
  | .Ongoing => false
  | .Checkmate _ => true
  | .Stalemate => true
  | .Draw _ => true
  | .Resigned _ => true

/-- `GameView` from the source.  Principals are opaque caller identities,
modelled as `Nat`. -/
structure GameView : Type where
  id : Nat
  white : Option Nat
  black : Option Nat
  fen : String
  moves_san : List String
  status : GameStatus
  created_ns : Nat
  updated_ns : Nat
  to_move_white : Bool
  white_principal : Option Nat
  black_principal : Option Nat
deriving DecidableEq, Repr

/-- `GameInternal` from the source, parametrised by the engine-owned
position type `P`. -/
structure GameInternal (P : Type) : Type where
  id : Nat
  pos : P
  moves_san : List String
  white : Option Nat
  black : Option Nat
  white_token_hash : HashVal
  black_token_hash : HashVal
  status : GameStatus
  created_ns : Nat
  updated_ns : Nat

/-- The external chess rules engine (shakmaty), abstracted: positions `P`,
moves `M`, parsed SAN values `S`, and the operations the backend calls on
them. -/
structure Engine (P M S : Type) : Type where
  /-- `Chess::default()`. -/
  defaultPos : P
  /-- `pos.legal_moves()`. -/
  legalMoves : P → List M
  /-- `matches!(pos.turn(), Color::White)`. -/
  turnWhite : P → Bool
  /-- `!pos.checkers().is_empty()`. -/
  inCheck : P → Bool
  /-- `pos.play(m)`, `none` on `Err`. -/
  play : P → M → Option P
  /-- `San::from_move(&pos, m).to_string()`. -/
  sanFromMove : P → M → String
  /-- `mv.parse::<San>()`, `none` on `Err`. -/
  parseSan : ByteStr → Option S
  /-- `san.to_move(&pos)`, `none` on `Err`. -/
  sanToMove : S → P → Option M
  /-- `m.from()` (square index 0..63). -/
  moveFrom : M → Option Nat
  /-- `m.to()`. -/
  moveTo : M → Nat
  /-- `m.promotion()`. -/
  promotion : M → Option Role
  /-- `Square::from_str`, `none` on `Err`. -/
  squareFromStr : ByteStr → Option Nat
  /-- `Fen::from_position(&pos, EnPassantMode::Legal).to_string()`. -/
  fen : P → String

/-- The burn sentinel `[0u8; 32]` written over a consumed token hash. -/
def zeroHash : HashVal := List.replicate 32 0

/-- `to_view` from the source. -/
def to_view {P M S : Type} (e : Engine P M S) (g : GameInternal P) : GameView :=
  { id := g.id
    white := g.white
    black := g.black
    fen := e.fen g.pos
    moves_san := g.moves_san
    status := g.status
    created_ns := g.created_ns
    updated_ns := g.updated_ns
    to_move_white := e.turnWhite g.pos
    white_principal := g.white
    black_principal := g.black }

/-- `compute_status` from the source: no legal move and in check is
checkmate for the side not to move; no legal move and not in check is
stalemate; otherwise ongoing. -/
def compute_status {P M S : Type} (e : Engine P M S) (pos : P) : GameStatus :=
  if (e.legalMoves pos).isEmpty then
    if e.inCheck pos then GameStatus.Checkmate (!e.turnWhite pos)
    else GameStatus.Stalemate
  else GameStatus.Ongoing

/-- Rust `str::is_char_boundary`: true at 0 and at the length, and at any
index holding a byte that is not a UTF-8 continuation byte. -/
def isCharBoundary (s : ByteStr) (i : Nat) : Bool :=
  if h : i < s.length then
    decide (i = 0 ∨ s.get ⟨i, h⟩ < 0x80 ∨ 0xC0 ≤ s.get ⟨i, h⟩)
  else decide (i = s.length)

/-- Rust byte-range slicing `&s[a..b]`: panics unless `a ≤ b` and both ends
are character boundaries (which also forces `b ≤ s.length`). -/
def sliceBytes (s : ByteStr) (a b : Nat) : PanicOr ByteStr :=
  if a ≤ b ∧ isCharBoundary s a = true ∧ isCharBoundary s b = true then
    .ok ((s.drop a).take (b - a))
  else .panics

/-- The `match &mv[4..5] { "q" | "Q" => …, … }` table of
`parse_uci_to_move`: promotion letter, case-insensitive. -/
def promoOfBytes : ByteStr → Option Role
  | [c] =>
    if c = 0x71 ∨ c = 0x51 then some Role.queen
    else if c = 0x72 ∨ c = 0x52 then some Role.rook
    else if c = 0x62 ∨ c = 0x42 then some Role.bishop
    else if c = 0x6E ∨ c = 0x4E then some Role.knight
    else none
  | _ => none

/-- The legal-move scan of `parse_uci_to_move`: first move matching origin
and destination such that (with a promotion letter) its promotion equals the
letter, or (without one) it is a non-promotion or the queen promotion. -/
def findUci {P M S : Type} (e : Engine P M S) (fromSq toSq : Nat)
    (promoRole : Option Role) : List M → Option M
  | [] => none
  | m :: ms =>
    if e.moveFrom m = some fromSq ∧ e.moveTo m = toSq then
      match promoRole with
      | some pr =>
        if e.promotion m = some pr then some m
        else findUci e fromSq toSq promoRole ms
      | none =>
        if (e.promotion m).isNone then some m
        else if e.promotion m = some Role.queen then some m
        else findUci e fromSq toSq promoRole ms
    else findUci e fromSq toSq promoRole ms

/-- `parse_uci_to_move` from the source, byte-faithful: rejects byte length
below 4, slices bytes 0..2, 2..4 (and 4..5 when the length is exactly 5,
for the promotion letter), parses the two squares, and scans the legal
moves.  Slicing panics off character boundaries, exactly as in Rust. -/
def parse_uci_to_move {P M S : Type} (e : Engine P M S) (pos : P)
    (mv : ByteStr) : PanicOr (Option M) :=
  if mv.length < 4 then .ok none
  else
    match sliceBytes mv 0 2 with
    | .panics => .panics
    | .ok s1 =>
      match e.squareFromStr s1 with
      | none => .ok none
      | some fromSq =>
        match sliceBytes mv 2 4 with
        | .panics => .panics
        | .ok s2 =>
          match e.squareFromStr s2 with
          | none => .ok none
          | some toSq =>
            match (if mv.length = 5 then
                     match sliceBytes mv 4 5 with
                     | .panics => PanicOr.panics
                     | .ok s3 => PanicOr.ok (promoOfBytes s3)
                   else PanicOr.ok none) with
            | .panics => .panics
            | .ok promoRole =>
              .ok (findUci e fromSq toSq promoRole (e.legalMoves pos))

/-- `parse_move_with_autopromo` from the source: try UCI first, then SAN. -/
def parse_move_with_autopromo {P M S : Type} (e : Engine P M S) (pos : P)
    (mv : ByteStr) : PanicOr (Except String M) :=
  match parse_uci_to_move e pos mv with
  | .panics => .panics
  | .ok (some m) => .ok (.ok m)
  | .ok none =>
    match e.parseSan mv with
    | some san =>
      match e.sanToMove san pos with
      | some m => .ok (.ok m)
      | none => .ok (.error "Illegal move")
    | none =>
      .ok (.error "Move must be SAN (e.g. \x27e4\x27) or UCI (\x27e2e4\x27/\x27e7e8q\x27)")

/-- `join_by_token` from the source (per-session part; `hashToken` is
`hash_token`, i.e. SHA-256, and `who`/`now` are the resolved caller and
clock).  Returns the caller-visible result and the resulting session. -/
def join_by_token {P M S : Type} (e : Engine P M S)
    (hashToken : ByteStr → HashVal) (who now : Nat) (g : GameInternal P)
    (token : ByteStr) : Except String GameView × GameInternal P :=
  if g.white = some who ∨ g.black = some who then
    (.error "You already occupy a seat in this game", g)
  else
    let th := hashToken token
    if th = g.white_token_hash then
      if g.white.isSome then (.error "White seat already taken", g)
      else
        let g2 : GameInternal P :=
          { g with white := some who, white_token_hash := zeroHash,
                   updated_ns := now }
        (.ok (to_view e g2), g2)
    else if th = g.black_token_hash then
      if g.black.isSome then (.error "Black seat already taken", g)
      else
        let g2 : GameInternal P :=
          { g with black := some who, black_token_hash := zeroHash,
                   updated_ns := now }
        (.ok (to_view e g2), g2)
    else (.error "Invalid or already-used token", g)

/-- The tail of `make_move` after the status and turn checks: parse the
move, render its SAN from the pre-move position, apply it, append the SAN,
recompute the status and bump `updated_ns`. -/
def make_move_apply {P M S : Type} (e : Engine P M S) (now : Nat)
    (g : GameInternal P) (mv : ByteStr) :
    PanicOr (Except String GameView × GameInternal P) :=
  match parse_move_with_autopromo e g.pos mv with
  | .panics => .panics
  | .ok (.error msg) => .ok (.error msg, g)
  | .ok (.ok m) =>
    let san_str := e.sanFromMove g.pos m
    match e.play g.pos m with
    | none => .ok (.error "Illegal move", g)
    | some newPos =>
      let g2 : GameInternal P :=
        { g with pos := newPos
                 moves_san := g.moves_san ++ [san_str]
                 status := compute_status e newPos
                 updated_ns := now }
      .ok (.ok (to_view e g2), g2)

/-- `make_move` from the source (per-session part): reject unless the
status is `Ongoing`; reject an actor other than the claimed occupant of the
seat whose turn it is; then parse and apply. -/
def make_move {P M S : Type} (e : Engine P M S) (who now : Nat)
    (g : GameInternal P) (mv : ByteStr) :
    PanicOr (Except String GameView × GameInternal P) :=
  if g.status.isOngoing = false then .ok (.error "Game finished", g)
  else if e.turnWhite g.pos then
    if g.white.isSome ∧ g.white ≠ some who then .ok (.error "Not white", g)
    else make_move_apply e now g mv
  else
    if g.black.isSome ∧ g.black ≠ some who then .ok (.error "Not black", g)
    else make_move_apply e now g mv

/-- `resign` from the source (per-session part). -/
def resign {P M S : Type} (e : Engine P M S) (who now : Nat)
    (g : GameInternal P) : Except String GameView × GameInternal P :=
  if g.status.isOngoing = false then (.error "Game finished", g)
  else if g.white = some who then
    let g2 : GameInternal P := { g with status := GameStatus.Resigned false,
                                        updated_ns := now }
    (.ok (to_view e g2), g2)
  else if g.black = some who then
    let g2 : GameInternal P := { g with status := GameStatus.Resigned true,
                                        updated_ns := now }
    (.ok (to_view e g2), g2)
  else (.error "You are not seated", g)

/-- The session inserted by `create_game`: initial position, no seats, the
two token hashes, `Ongoing`, equal timestamps. -/
def initGame {P M S : Type} (e : Engine P M S)
    (hashToken : ByteStr → HashVal) (id : Nat) (wt bt : ByteStr)
    (now : Nat) : GameInternal P :=
  { id := id
    pos := e.defaultPos
    moves_san := []
    white := none
    black := none
    white_token_hash := hashToken wt
    black_token_hash := hashToken bt
    status := GameStatus.Ongoing
    created_ns := now
    updated_ns := now }

/-- One caller-initiated mutating operation on a session. -/
inductive Op : Type
  | joinOp : (who now : Nat) → (token : ByteStr) → Op
  | moveOp : (who now : Nat) → (mv : ByteStr) → Op
  | resignOp : (who now : Nat) → Op

/-- The session after one operation.  A panic (canister trap) rolls the
state back, so `moveOp` keeps the old session on `panics`. -/
def applyOp {P M S : Type} (e : Engine P M S)
    (hashToken : ByteStr → HashVal) (g : GameInternal P) : Op → GameInternal P
  | .joinOp who now token => (join_by_token e hashToken who now g token).2
  | .moveOp who now mv =>
    match make_move e who now g mv with
    | .panics => g
    | .ok r => r.2
  | .resignOp who now => (resign e who now g).2

/-- The session after a sequence of operations. -/
def applyOps {P M S : Type} (e : Engine P M S)
    (hashToken : ByteStr → HashVal) : List Op → GameInternal P → GameInternal P
  | [], g => g
  | op :: ops, g => applyOps e hashToken ops (applyOp e hashToken g op)

/-- Sessions reachable from creation by any sequence of operations. -/
inductive Reachable {P M S : Type} (e : Engine P M S)
    (hashToken : ByteStr → HashVal) : GameInternal P → Prop
  | created (id : Nat) (wt bt : ByteStr) (now : Nat) :
      Reachable e hashToken (initGame e hashToken id wt bt now)
  | step {g : GameInternal P} (op : Op) :
      Reachable e hashToken g → Reachable e hashToken (applyOp e hashToken g op)

/-! ### Concrete engine instances

Small executable rules engines, used to evaluate the orchestration layer on
concrete inputs.  `asciiSquare` is a concrete square parser (lowercase file
`a`-`h`, rank `1`-`8`). -/

/-- Concrete square parser for the sample engines. -/
def asciiSquare : ByteStr → Option Nat
  | [f, r] =>
    if 0x61 ≤ f ∧ f ≤ 0x68 ∧ 0x31 ≤ r ∧ r ≤ 0x38 then
      some ((r - 0x31) * 8 + (f - 0x61))
    else none
  | _ => none

/-- A degenerate sample engine with no legal moves. -/
def E0 : Engine Unit Unit Unit :=
  { defaultPos := ()
    legalMoves := fun _ => []
    turnWhite := fun _ => true
    inCheck := fun _ => false
    play := fun _ _ => none
    sanFromMove := fun _ _ => ""
    parseSan := fun _ => none
    sanToMove := fun _ _ => none
    moveFrom := fun _ => none
    moveTo := fun _ => 0
    promotion := fun _ => none
    squareFromStr := asciiSquare
    fen := fun _ => "" }

/-- A sample engine whose position is the side to move: from `true` (white
to move) the single legal move `0` goes from square 12 (e2) to 28 (e4) and
leads to `false`, where black has no legal move and is in check. -/
def E2 : Engine Bool Nat Unit :=
  { defaultPos := true
    legalMoves := fun p => if p then [0] else []
    turnWhite := fun p => p
    inCheck := fun p => !p
    play := fun p _ => some (!p)
    sanFromMove := fun _ _ => "e4"
    parseSan := fun _ => none
    sanToMove := fun _ _ => none
    moveFrom := fun _ => some 12
    moveTo := fun _ => 28
    promotion := fun _ => none
    squareFromStr := asciiSquare
    fen := fun _ => "" }

/-- A concrete stand-in for SHA-256: deterministic, never the zero
sentinel. -/
def Hash0 : ByteStr → HashVal := fun s => [s.sum + 1]

/-- A fresh game over `E0` with white token `[7]` and black token `[9]`. -/
def g0 : GameInternal Unit := initGame E0 Hash0 1 [7] [9] 0

/-- `g0` pushed into a terminal status. -/
def gT : GameInternal Unit := { g0 with status := GameStatus.Stalemate }

/-- A fresh game over `E2`. -/
def gF : GameInternal Bool := initGame E2 Hash0 1 [7] [9] 0

/-- `gF` with the white seat claimed by actor 1. -/
def gWseat : GameInternal Bool := { gF with white := some 1 }

/-- `g0` after actor 1 joins on the white token. -/
def gW1 : GameInternal Unit := applyOp E0 Hash0 g0 (Op.joinOp 1 5 [7])

/-- `gW1` after actor 2 joins on the black token. -/
def gWB : GameInternal Unit := applyOp E0 Hash0 gW1 (Op.joinOp 2 6 [9])

/-- UTF-8 bytes of `"e2e4"`. -/
def uciE2E4 : ByteStr := [0x65, 0x32, 0x65, 0x34]

/-- The session produced by playing `e2e4` on `gF`: the single legal move
leads to a mated position. -/
def gMate : GameInternal Bool :=
  { gF with pos := false, moves_san := ["e4"],
            status := GameStatus.Checkmate true, updated_ns := 3 }

/-! ### Spec-side predicates -/

/-- The promotion constraint the coordinate grammar extracts from the move
text: the letter at byte 4 when the text has exactly five bytes and that
letter is `q`/`r`/`b`/`n` (either case); nothing otherwise. -/
def uciPromo (mv : ByteStr) : Option Role :=
  if mv.length = 5 then promoOfBytes ((mv.drop 4).take 1) else none

/-- When a move is admissible for a promotion constraint: with a letter the
move's promotion must equal it exactly; without one the move must be a
non-promotion or the queen promotion (the permissive default). -/
def promoMatches {P M S : Type} (e : Engine P M S) (pr : Option Role) (m : M) : Prop :=
  match pr with
  | some p => e.promotion m = some p
  | none => e.promotion m = none ∨ e.promotion m = some Role.queen

/-- Both seats, when claimed, hold distinct actors. -/
def seatsDistinct {P : Type} (g : GameInternal P) : Prop :=
  ∀ a b, g.white = some a → g.black = some b → a ≠ b

/-- A digest matches neither stored seat hash of the session. -/
def tokenUnmatched {P : Type} (th : HashVal) (g : GameInternal P) : Prop :=
  th ≠ g.white_token_hash ∧ th ≠ g.black_token_hash

/-! ### Helper lemmas -/

theorem isOngoing_false_of_terminal {s : GameStatus} (h : s.isTerminal = true) :
    s.isOngoing = false := by
  cases s <;> simp_all [GameStatus.isTerminal, GameStatus.isOngoing]

theorem isOngoing_true_iff {s : GameStatus} :
    s.isOngoing = true ↔ s = GameStatus.Ongoing := by
  cases s <;> simp [GameStatus.isOngoing]

/-- Full case analysis of `join_by_token`: it either fails leaving the
session unchanged, or claims the white seat, or claims the black seat. -/
theorem join_by_token_cases {P M S : Type} (e : Engine P M S)
    (hashToken : ByteStr → HashVal) (who now : Nat) (g : GameInternal P)
    (token : ByteStr) :
    (∃ msg, join_by_token e hashToken who now g token = (.error msg, g)) ∨
    (g.white ≠ some who ∧ g.black ≠ some who ∧ g.white = none ∧
      hashToken token = g.white_token_hash ∧
      join_by_token e hashToken who now g token =
        (.ok (to_view e { g with white := some who, white_token_hash := zeroHash,
                                 updated_ns := now }),
         { g with white := some who, white_token_hash := zeroHash,
                  updated_ns := now })) ∨
    (g.white ≠ some who ∧ g.black ≠ some who ∧ g.black = none ∧
      hashToken token ≠ g.white_token_hash ∧
      hashToken token = g.black_token_hash ∧
      join_by_token e hashToken who now g token =
        (.ok (to_view e { g with black := some who, black_token_hash := zeroHash,
                                 updated_ns := now }),
         { g with black := some who, black_token_hash := zeroHash,
                  updated_ns := now })) := by
  unfold join_by_token
  by_cases hseat : g.white = some who ∨ g.black = some who
  · exact Or.inl ⟨_, by rw [if_pos hseat]⟩
  · push_neg at hseat
    rw [if_neg (by tauto)]
    by_cases hw : hashToken token = g.white_token_hash
    · rw [if_pos hw]
      by_cases hws : g.white.isSome = true
      · exact Or.inl ⟨_, by rw [if_pos hws]⟩
      · rw [if_neg hws]
        exact Or.inr (Or.inl ⟨hseat.1, hseat.2, Option.not_isSome_iff_eq_none.mp hws,
          hw, rfl⟩)
    · rw [if_neg hw]
      by_cases hb : hashToken token = g.black_token_hash
      · rw [if_pos hb]
        by_cases hbs : g.black.isSome = true
        · exact Or.inl ⟨_, by rw [if_pos hbs]⟩
        · rw [if_neg hbs]
          exact Or.inr (Or.inr ⟨hseat.1, hseat.2,
            Option.not_isSome_iff_eq_none.mp hbs, hw, hb, rfl⟩)
      · exact Or.inl ⟨_, by rw [if_neg hb]⟩

/-- `join_by_token` never changes the status field. -/
theorem join_by_token_snd_status {P M S : Type} (e : Engine P M S)
    (hashToken : ByteStr → HashVal) (who now : Nat) (g : GameInternal P)
    (token : ByteStr) :
    (join_by_token e hashToken who now g token).2.status = g.status := by
  rcases join_by_token_cases e hashToken who now g token with
    ⟨msg, h⟩ | ⟨_, _, _, _, h⟩ | ⟨_, _, _, _, _, h⟩ <;> rw [h]

/-- `make_move` on a session that is not ongoing fails `GameFinished`
unchanged. -/
theorem make_move_not_ongoing {P M S : Type} (e : Engine P M S) (who now : Nat)
    (g : GameInternal P) (mv : ByteStr) (h : g.status.isOngoing = false) :
    make_move e who now g mv = .ok (.error "Game finished", g) := by
  unfold make_move
  rw [if_pos h]

/-- `resign` on a session that is not ongoing fails `GameFinished`
unchanged. -/
theorem resign_not_ongoing {P M S : Type} (e : Engine P M S) (who now : Nat)
    (g : GameInternal P) (h : g.status.isOngoing = false) :
    resign e who now g = (.error "Game finished", g) := by
  unfold resign
  rw [if_pos h]

/-- Full case analysis of `make_move`: it panics, or fails leaving the
session unchanged, or commits position, history, status and timestamp
together. -/
theorem make_move_cases {P M S : Type} (e : Engine P M S) (who now : Nat)
    (g : GameInternal P) (mv : ByteStr) :
    make_move e who now g mv = .panics ∨
    (∃ msg, make_move e who now g mv = .ok (.error msg, g)) ∨
    (∃ m newPos, g.status.isOngoing = true ∧ e.play g.pos m = some newPos ∧
      make_move e who now g mv =
        .ok (.ok (to_view e
          { g with pos := newPos,
                   moves_san := g.moves_san ++ [e.sanFromMove g.pos m],
                   status := compute_status e newPos, updated_ns := now }),
          { g with pos := newPos,
                   moves_san := g.moves_san ++ [e.sanFromMove g.pos m],
                   status := compute_status e newPos, updated_ns := now })) := by
  have happly : ∀ hg : g.status.isOngoing = true,
      make_move_apply e now g mv = .panics ∨
      (∃ msg, make_move_apply e now g mv = .ok (.error msg, g)) ∨
      (∃ m newPos, g.status.isOngoing = true ∧ e.play g.pos m = some newPos ∧
        make_move_apply e now g mv =
          .ok (.ok (to_view e
            { g with pos := newPos,
                     moves_san := g.moves_san ++ [e.sanFromMove g.pos m],
                     status := compute_status e newPos, updated_ns := now }),
            { g with pos := newPos,
                     moves_san := g.moves_san ++ [e.sanFromMove g.pos m],
                     status := compute_status e newPos, updated_ns := now })) := by
    intro hg
    unfold make_move_apply
    cases hp : parse_move_with_autopromo e g.pos mv with
    | panics => exact Or.inl rfl
    | ok r =>
      cases r with
      | error msg => exact Or.inr (Or.inl ⟨msg, rfl⟩)
      | ok m =>
        dsimp only
        cases hplay : e.play g.pos m with
        | none => exact Or.inr (Or.inl ⟨"Illegal move", rfl⟩)
        | some newPos => exact Or.inr (Or.inr ⟨m, newPos, hg, hplay, rfl⟩)
  unfold make_move
  by_cases hg : g.status.isOngoing = false
  · rw [if_pos hg]
    exact Or.inr (Or.inl ⟨"Game finished", rfl⟩)
  · rw [if_neg hg]
    have hg' : g.status.isOngoing = true := by
      cases hob : g.status.isOngoing
      · exact absurd hob hg
      · rfl
    by_cases ht : e.turnWhite g.pos = true
    · rw [if_pos ht]
      by_cases hw : g.white.isSome = true ∧ g.white ≠ some who
      · rw [if_pos hw]
        exact Or.inr (Or.inl ⟨"Not white", rfl⟩)
      · rw [if_neg hw]
        exact happly hg'
    · rw [if_neg ht]
      by_cases hb : g.black.isSome = true ∧ g.black ≠ some who
      · rw [if_pos hb]
        exact Or.inr (Or.inl ⟨"Not black", rfl⟩)
      · rw [if_neg hb]
        exact happly hg'

/-- Full case analysis of `resign`. -/
theorem resign_cases {P M S : Type} (e : Engine P M S) (who now : Nat)
    (g : GameInternal P) :
    (∃ msg, resign e who now g = (.error msg, g)) ∨
    (g.status.isOngoing = true ∧ g.white = some who ∧
      resign e who now g =
        (.ok (to_view e { g with status := GameStatus.Resigned false,
                                 updated_ns := now }),
         { g with status := GameStatus.Resigned false, updated_ns := now })) ∨
    (g.status.isOngoing = true ∧ g.white ≠ some who ∧ g.black = some who ∧
      resign e who now g =
        (.ok (to_view e { g with status := GameStatus.Resigned true,
                                 updated_ns := now }),
         { g with status := GameStatus.Resigned true, updated_ns := now })) := by
  unfold resign
  by_cases hg : g.status.isOngoing = false
  · rw [if_pos hg]
    exact Or.inl ⟨_, rfl⟩
  · rw [if_neg hg]
    have hg' : g.status.isOngoing = true := by
      cases hob : g.status.isOngoing
      · exact absurd hob hg
      · rfl
    by_cases hw : g.white = some who
    · rw [if_pos hw]
      exact Or.inr (Or.inl ⟨hg', hw, rfl⟩)
    · rw [if_neg hw]
      by_cases hb : g.black = some who
      · rw [if_pos hb]
        exact Or.inr (Or.inr ⟨hg', hw, hb, rfl⟩)
      · rw [if_neg hb]
        exact Or.inl ⟨_, rfl⟩

/-- `compute_status` never yields a `Draw`. -/
theorem compute_status_ne_draw {P M S : Type} (e : Engine P M S) (pos : P)
    (rs : String) : compute_status e pos ≠ GameStatus.Draw rs := by
  unfold compute_status
  split_ifs <;> simp

/-- A successful `make_move` stamps the session with the status computed
from its new position. -/
theorem make_move_ok_status {P M S : Type} {e : Engine P M S} {who now : Nat}
    {g g2 : GameInternal P} {mv : ByteStr} {v : GameView}
    (h : make_move e who now g mv = .ok (.ok v, g2)) :
    g2.status = compute_status e g2.pos ∧ g2.white = g.white ∧
      g2.black = g.black := by
  rcases make_move_cases e who now g mv with hp | ⟨msg, he⟩ | ⟨m, np, _, _, heq⟩
  · rw [hp] at h
    cases h
  · rw [he] at h
    simp at h
  · rw [heq] at h
    obtain ⟨-, h2⟩ := (Prod.mk.injEq _ _ _ _).mp (PanicOr.ok.inj h)
    rw [← h2]
    exact ⟨rfl, rfl, rfl⟩

/-- Every operation preserves seat distinctness. -/
theorem applyOp_preserves_seatsDistinct {P M S : Type} (e : Engine P M S)
    (hashToken : ByteStr → HashVal) (g : GameInternal P) (op : Op)
    (h : seatsDistinct g) : seatsDistinct (applyOp e hashToken g op) := by
  cases op with
  | joinOp who now token =>
    rcases join_by_token_cases e hashToken who now g token with
      ⟨msg, hj⟩ | ⟨hnw, hnb, hwn, _, hj⟩ | ⟨hnw, hnb, hbn, _, _, hj⟩
    · simpa [applyOp, hj] using h
    · intro a b ha hb
      simp only [applyOp, hj] at ha hb
      have ha' : a = who := by
        have := ha
        simp at this
        exact this.symm
      subst ha'
      intro hab
      exact hnb (by rw [← hab] at hb; exact hb)
    · intro a b ha hb
      simp only [applyOp, hj] at ha hb
      have hb' : b = who := by
        have := hb
        simp at this
        exact this.symm
      subst hb'
      intro hab
      exact hnw (by rw [hab] at ha; exact ha)
  | moveOp who now mv =>
    rcases make_move_cases e who now g mv with hp | ⟨msg, he⟩ | ⟨m, np, _, _, heq⟩
    · simpa [applyOp, hp] using h
    · simpa [applyOp, he] using h
    · simpa [applyOp, heq] using h
  | resignOp who now =>
    rcases resign_cases e who now g with ⟨msg, hr⟩ | ⟨_, _, hr⟩ | ⟨_, _, _, hr⟩ <;>
      simpa [applyOp, hr] using h

/-- Any reachable session has distinct seat occupants. -/
theorem reachable_seatsDistinct {P M S : Type} {e : Engine P M S}
    {hashToken : ByteStr → HashVal} {g : GameInternal P}
    (h : Reachable e hashToken g) : seatsDistinct g := by
  induction h with
  | created id wt bt now =>
    intro a b ha _
    simp [initGame] at ha
  | step op _ ih => exact applyOp_preserves_seatsDistinct _ _ _ _ ih

/-- Once the status is terminal, no single operation changes it. -/
theorem applyOp_status_of_terminal {P M S : Type} (e : Engine P M S)
    (hashToken : ByteStr → HashVal) (g : GameInternal P) (op : Op)
    (hterm : g.status.isTerminal = true) :
    (applyOp e hashToken g op).status = g.status := by
  have hong := isOngoing_false_of_terminal hterm
  cases op with
  | joinOp who now token => exact join_by_token_snd_status e hashToken who now g token
  | moveOp who now mv =>
    simp [applyOp, make_move_not_ongoing e who now g mv hong]
  | resignOp who now =>
    simp [applyOp, resign_not_ongoing e who now g hong]

theorem isCharBoundary_zero (s : ByteStr) : isCharBoundary s 0 = true := by
  unfold isCharBoundary
  split
  · simp
  · next h =>
    simp only [decide_eq_true_eq]
    omega

theorem isCharBoundary_length (s : ByteStr) : isCharBoundary s s.length = true := by
  unfold isCharBoundary
  split
  · omega
  · simp

theorem sliceBytes_ok {s : ByteStr} {a b : Nat} {r : ByteStr}
    (h : sliceBytes s a b = .ok r) :
    r = (s.drop a).take (b - a) ∧ a ≤ b ∧ isCharBoundary s a = true ∧
      isCharBoundary s b = true := by
  unfold sliceBytes at h
  split at h
  · next hc => exact ⟨(PanicOr.ok.inj h).symm, hc⟩
  · cases h

theorem sliceBytes_eq_ok {s : ByteStr} {a b : Nat} (hab : a ≤ b)
    (ha : isCharBoundary s a = true) (hb : isCharBoundary s b = true) :
    sliceBytes s a b = .ok ((s.drop a).take (b - a)) := by
  unfold sliceBytes
  rw [if_pos ⟨hab, ha, hb⟩]

/-- Any move returned by the legal-move scan is a matching legal move
admissible for the promotion constraint. -/
theorem findUci_sound {P M S : Type} {e : Engine P M S} {f tq : Nat}
    {pr : Option Role} {l : List M} {m : M} (h : findUci e f tq pr l = some m) :
    m ∈ l ∧ e.moveFrom m = some f ∧ e.moveTo m = tq ∧ promoMatches e pr m := by
  induction l with
  | nil => simp [findUci] at h
  | cons x xs ih =>
    unfold findUci at h
    by_cases hft : e.moveFrom x = some f ∧ e.moveTo x = tq
    · rw [if_pos hft] at h
      cases pr with
      | some p =>
        dsimp only at h
        by_cases hp : e.promotion x = some p
        · rw [if_pos hp] at h
          injection h with h
          subst h
          exact ⟨List.mem_cons_self _ _, hft.1, hft.2, hp⟩
        · rw [if_neg hp] at h
          obtain ⟨h1, h2⟩ := ih h
          exact ⟨List.mem_cons_of_mem _ h1, h2⟩
      | none =>
        dsimp only at h
        by_cases hn : (e.promotion x).isNone = true
        · rw [if_pos hn] at h
          injection h with h
          subst h
          exact ⟨List.mem_cons_self _ _, hft.1, hft.2,
            Or.inl (Option.isNone_iff_eq_none.mp hn)⟩
        · rw [if_neg hn] at h
          by_cases hq : e.promotion x = some Role.queen
          · rw [if_pos hq] at h
            injection h with h
            subst h
            exact ⟨List.mem_cons_self _ _, hft.1, hft.2, Or.inr hq⟩
          · rw [if_neg hq] at h
            obtain ⟨h1, h2⟩ := ih h
            exact ⟨List.mem_cons_of_mem _ h1, h2⟩
    · rw [if_neg hft] at h
      obtain ⟨h1, h2⟩ := ih h
      exact ⟨List.mem_cons_of_mem _ h1, h2⟩

/-- If some legal move matches the squares and the promotion constraint,
the legal-move scan returns a move. -/
theorem findUci_complete {P M S : Type} {e : Engine P M S} {f tq : Nat}
    {pr : Option Role} {l : List M}
    (h : ∃ m ∈ l, e.moveFrom m = some f ∧ e.moveTo m = tq ∧ promoMatches e pr m) :
    ∃ m, findUci e f tq pr l = some m := by
  induction l with
  | nil => simp at h
  | cons x xs ih =>
    unfold findUci
    obtain ⟨m, hm, h1, h2, h3⟩ := h
    by_cases hft : e.moveFrom x = some f ∧ e.moveTo x = tq
    · rw [if_pos hft]
      cases pr with
      | some p =>
        dsimp only
        by_cases hp : e.promotion x = some p
        · exact ⟨x, by rw [if_pos hp]⟩
        · rw [if_neg hp]
          apply ih
          rcases List.mem_cons.mp hm with hx | hx
          · subst hx
            exact absurd h3 hp
          · exact ⟨m, hx, h1, h2, h3⟩
      | none =>
        dsimp only
        by_cases hn : (e.promotion x).isNone = true
        · rw [if_pos hn]
          exact ⟨x, rfl⟩
        · rw [if_neg hn]
          by_cases hq : e.promotion x = some Role.queen
          · rw [if_pos hq]
            exact ⟨x, rfl⟩
          · rw [if_neg hq]
            apply ih
            rcases List.mem_cons.mp hm with hx | hx
            · subst hx
              rcases h3 with h3 | h3
              · exact absurd (by rw [h3]; rfl) hn
              · exact absurd h3 hq
            · exact ⟨m, hx, h1, h2, h3⟩
    · rw [if_neg hft]
      apply ih
      rcases List.mem_cons.mp hm with hx | hx
      · subst hx
        exact absurd ⟨h1, h2⟩ hft
      · exact ⟨m, hx, h1, h2, h3⟩

/-- Once the status is terminal, no sequence of operations changes it. -/
theorem applyOps_status_of_terminal {P M S : Type} (e : Engine P M S)
    (hashToken : ByteStr → HashVal) (ops : List Op) (g : GameInternal P)
    (hterm : g.status.isTerminal = true) :
    (applyOps e hashToken ops g).status = g.status := by
  induction ops generalizing g with
  | nil => rfl
  | cons op ops ih =>
    have h1 := applyOp_status_of_terminal e hashToken g op hterm
    have hterm2 : (applyOp e hashToken g op).status.isTerminal = true := by
      rw [h1]
      exact hterm
    calc (applyOps e hashToken (op :: ops) g).status
        = (applyOps e hashToken ops (applyOp e hashToken g op)).status := rfl
      _ = (applyOp e hashToken g op).status := ih _ hterm2
      _ = g.status := h1

/-- A join with a token whose hash matches neither stored seat hash fails:
`AlreadySeated` when the caller holds a seat, `InvalidToken` otherwise. -/
theorem join_by_token_fails_of_unmatched {P M S : Type} (e : Engine P M S)
    (hashToken : ByteStr → HashVal) (who nowb : Nat) (g : GameInternal P)
    (t : ByteStr) (hu : tokenUnmatched (hashToken t) g) :
    (join_by_token e hashToken who nowb g t).1.isOk = false ∧
    (g.white = some who ∨ g.black = some who →
      (join_by_token e hashToken who nowb g t).1 =
        .error "You already occupy a seat in this game") ∧
    (g.white ≠ some who → g.black ≠ some who →
      (join_by_token e hashToken who nowb g t).1 =
        .error "Invalid or already-used token") := by
  by_cases hseat : g.white = some who ∨ g.black = some who
  · have h2 : join_by_token e hashToken who nowb g t =
        (.error "You already occupy a seat in this game", g) := by
      unfold join_by_token
      rw [if_pos hseat]
    rw [h2]
    exact ⟨rfl, fun _ => rfl, fun hnw hnb => absurd hseat (by tauto)⟩
  · have h2 : join_by_token e hashToken who nowb g t =
        (.error "Invalid or already-used token", g) := by
      unfold join_by_token
      rw [if_neg hseat]
      show (if hashToken t = g.white_token_hash then _ else _) = _
      rw [if_neg hu.1]
      show (if hashToken t = g.black_token_hash then _ else _) = _
      rw [if_neg hu.2]
    rw [h2]
    exact ⟨rfl, fun hs => absurd hs hseat, fun _ _ => rfl⟩

/-- After a successful join with token `t`, the hash of `t` matches neither
stored seat hash any more: the claimed seat's hash is overwritten with the
burn sentinel, and the other seat's hash differs by hypothesis. -/
theorem join_ok_unmatched {P M S : Type} (e : Engine P M S)
    (hashToken : ByteStr → HashVal) (a nowa : Nat) (g : GameInternal P)
    (t : ByteStr) (hz : hashToken t ≠ zeroHash)
    (hd : hashToken t = g.white_token_hash → hashToken t ≠ g.black_token_hash)
    (hok : (join_by_token e hashToken a nowa g t).1.isOk = true) :
    tokenUnmatched (hashToken t) (join_by_token e hashToken a nowa g t).2 := by
  rcases join_by_token_cases e hashToken a nowa g t with
    ⟨msg, hj⟩ | ⟨_, _, _, hth, hj⟩ | ⟨_, _, _, hthw, _, hj⟩
  · rw [hj] at hok
    simp [Except.isOk, Except.toBool] at hok
  · rw [hj]
    exact ⟨hz, hd hth⟩
  · rw [hj]
    exact ⟨hthw, hz⟩

/-- Seat hashes are only ever overwritten with the burn sentinel, so a
digest matching neither hash keeps matching neither across any single
operation. -/
theorem applyOp_preserves_unmatched {P M S : Type} (e : Engine P M S)
    (hashToken : ByteStr → HashVal) (g : GameInternal P) (op : Op)
    (th : HashVal) (hz : th ≠ zeroHash) (hu : tokenUnmatched th g) :
    tokenUnmatched th (applyOp e hashToken g op) := by
  obtain ⟨hw, hb⟩ := hu
  cases op with
  | joinOp who now token =>
    rcases join_by_token_cases e hashToken who now g token with
      ⟨msg, hj⟩ | ⟨_, _, _, _, hj⟩ | ⟨_, _, _, _, _, hj⟩
    · show tokenUnmatched th (join_by_token e hashToken who now g token).2
      rw [hj]
      exact ⟨hw, hb⟩
    · show tokenUnmatched th (join_by_token e hashToken who now g token).2
      rw [hj]
      exact ⟨hz, hb⟩
    · show tokenUnmatched th (join_by_token e hashToken who now g token).2
      rw [hj]
      exact ⟨hw, hz⟩
  | moveOp who now mv =>
    rcases make_move_cases e who now g mv with hp | ⟨msg, hm⟩ | ⟨m, np, _, _, hm⟩
    · simp only [applyOp]
      rw [hp]
      exact ⟨hw, hb⟩
    · simp only [applyOp]
      rw [hm]
      exact ⟨hw, hb⟩
    · simp only [applyOp]
      rw [hm]
      exact ⟨hw, hb⟩
  | resignOp who now =>
    rcases resign_cases e who now g with ⟨msg, hr⟩ | ⟨_, _, hr⟩ | ⟨_, _, _, hr⟩
    · show tokenUnmatched th (resign e who now g).2
      rw [hr]
      exact ⟨hw, hb⟩
    · show tokenUnmatched th (resign e who now g).2
      rw [hr]
      exact ⟨hw, hb⟩
    · show tokenUnmatched th (resign e who now g).2
      rw [hr]
      exact ⟨hw, hb⟩

/-- A digest matching neither seat hash keeps matching neither across any
sequence of operations. -/
theorem applyOps_preserves_unmatched {P M S : Type} (e : Engine P M S)
    (hashToken : ByteStr → HashVal) (ops : List Op) (g : GameInternal P)
    (th : HashVal) (hz : th ≠ zeroHash) (hu : tokenUnmatched th g) :
    tokenUnmatched th (applyOps e hashToken ops g) := by
  induction ops generalizing g with
  | nil => exact hu
  | cons op ops ih =>
    exact ih _ (applyOp_preserves_unmatched e hashToken g op th hz hu)

/-! ### Claims -/

/-- C1: on a session whose status is terminal (anything other than
`Ongoing`), `make_move` and `resign` fail with the `GameFinished` error and
leave the session unchanged, and the status never changes again under any
sequence of join/move/resign operations. -/
theorem C1_terminal_absorbing {P M S : Type} (e : Engine P M S)
    (hashToken : ByteStr → HashVal) (who now : Nat) (g : GameInternal P)
    (mv : ByteStr) (hterm : g.status.isTerminal = true) :
    make_move e who now g mv = .ok (.error "Game finished", g) ∧
    resign e who now g = (.error "Game finished", g) ∧
    ∀ ops : List Op, (applyOps e hashToken ops g).status = g.status := by
  have hong := isOngoing_false_of_terminal hterm
  exact ⟨make_move_not_ongoing e who now g mv hong,
    resign_not_ongoing e who now g hong,
    fun ops => applyOps_status_of_terminal e hashToken ops g hterm⟩

/-- Witness for C1: a concrete stalemated session rejects a move and a
resignation unchanged, and keeps its status across an operation sequence. -/
theorem C1_terminal_absorbing_witness :
    gT.status.isTerminal = true ∧
    make_move E0 1 2 gT [0x65] = .ok (.error "Game finished", gT) ∧
    resign E0 1 2 gT = (.error "Game finished", gT) ∧
    (applyOps E0 Hash0 [Op.joinOp 1 3 [7], Op.resignOp 1 4] gT).status =
      gT.status := by
  have h := C1_terminal_absorbing E0 Hash0 1 2 gT [0x65] (by decide)
  exact ⟨by decide, h.1, h.2.1, h.2.2 [Op.joinOp 1 3 [7], Op.resignOp 1 4]⟩

/-- C2: whenever `join_by_token`, `make_move` or `resign` returns an error,
the session — seats, token hashes, position, history, status, timestamps —
is exactly the one passed in. -/
theorem C2_error_means_unchanged {P M S : Type} (e : Engine P M S)
    (hashToken : ByteStr → HashVal) (who now : Nat) (g : GameInternal P)
    (token mv : ByteStr) :
    (∀ msg g2, join_by_token e hashToken who now g token = (.error msg, g2) →
       g2 = g) ∧
    (∀ msg g2, make_move e who now g mv = .ok (.error msg, g2) → g2 = g) ∧
    (∀ msg g2, resign e who now g = (.error msg, g2) → g2 = g) := by
  refine ⟨?_, ?_, ?_⟩
  · intro msg g2 h
    rcases join_by_token_cases e hashToken who now g token with
      ⟨m', hj⟩ | ⟨_, _, _, _, hj⟩ | ⟨_, _, _, _, _, hj⟩ <;> rw [hj] at h
    · exact ((Prod.mk.injEq _ _ _ _).mp h).2.symm
    · simp at h
    · simp at h
  · intro msg g2 h
    rcases make_move_cases e who now g mv with hp | ⟨m', hm⟩ | ⟨m, np, _, _, hm⟩
    · rw [hp] at h
      cases h
    · rw [hm] at h
      have := (Prod.mk.injEq _ _ _ _).mp (PanicOr.ok.inj h)
      exact this.2.symm
    · rw [hm] at h
      simp at h
  · intro msg g2 h
    rcases resign_cases e who now g with
      ⟨m', hr⟩ | ⟨_, _, hr⟩ | ⟨_, _, _, hr⟩ <;> rw [hr] at h
    · exact ((Prod.mk.injEq _ _ _ _).mp h).2.symm
    · simp at h
    · simp at h

/-- Witness for C2: concrete failing calls of all three operations leave
the concrete sessions untouched. -/
theorem C2_error_means_unchanged_witness :
    join_by_token E0 Hash0 3 5 g0 [1, 1, 1] =
      (.error "Invalid or already-used token", g0) ∧
    make_move E2 2 7 gWseat uciE2E4 = .ok (.error "Not white", gWseat) ∧
    resign E0 3 9 gW1 = (.error "You are not seated", gW1) ∧
    (join_by_token E0 Hash0 3 5 g0 [1, 1, 1]).2 = g0 ∧
    (resign E0 3 9 gW1).2 = gW1 := by
  refine ⟨rfl, rfl, rfl, ?_, ?_⟩
  · exact (C2_error_means_unchanged E0 Hash0 3 5 g0 [1, 1, 1] uciE2E4).1
      "Invalid or already-used token" _ rfl
  · exact (C2_error_means_unchanged E0 Hash0 3 9 gW1 [1, 1, 1] uciE2E4).2.2
      "You are not seated" _ rfl

/-- C3 counterexample: actor 1 claims a seat of `g0` with the white secret;
their second `join` with the same secret fails with the `AlreadySeated`
error, not the `InvalidToken` one the claim requires of every actor. -/
theorem C3_counterexample :
    (join_by_token E0 Hash0 1 5 g0 [7]).1.isOk = true ∧
    (join_by_token E0 Hash0 1 6 (join_by_token E0 Hash0 1 5 g0 [7]).2 [7]).1 =
      .error "You already occupy a seat in this game" ∧
    "You already occupy a seat in this game" ≠
      "Invalid or already-used token" :=
  ⟨rfl, rfl, by decide⟩

/-- C3 (amended): after a join with a secret succeeds, every subsequent
join of the same game with that secret — after any sequence of intervening
join/move/resign operations — fails: with `AlreadySeated` when the caller
already holds a seat, with `InvalidToken` otherwise, provided the secret's
hash is neither the zero burn sentinel nor (when it matched the white seat)
equal to the black seat's stored hash. -/
theorem C3_second_join_fails {P M S : Type} (e : Engine P M S)
    (hashToken : ByteStr → HashVal) (a nowa : Nat) (g : GameInternal P)
    (t : ByteStr) (hz : hashToken t ≠ zeroHash)
    (hd : hashToken t = g.white_token_hash → hashToken t ≠ g.black_token_hash)
    (hok : (join_by_token e hashToken a nowa g t).1.isOk = true) :
    ∀ (ops : List Op) (who nowb : Nat),
      (join_by_token e hashToken who nowb
          (applyOps e hashToken ops (join_by_token e hashToken a nowa g t).2)
          t).1.isOk = false ∧
      ((applyOps e hashToken ops
          (join_by_token e hashToken a nowa g t).2).white = some who ∨
       (applyOps e hashToken ops
          (join_by_token e hashToken a nowa g t).2).black = some who →
        (join_by_token e hashToken who nowb
            (applyOps e hashToken ops (join_by_token e hashToken a nowa g t).2)
            t).1 =
          .error "You already occupy a seat in this game") ∧
      ((applyOps e hashToken ops
          (join_by_token e hashToken a nowa g t).2).white ≠ some who →
       (applyOps e hashToken ops
          (join_by_token e hashToken a nowa g t).2).black ≠ some who →
        (join_by_token e hashToken who nowb
            (applyOps e hashToken ops (join_by_token e hashToken a nowa g t).2)
            t).1 =
          .error "Invalid or already-used token") := by
  intro ops who nowb
  exact join_by_token_fails_of_unmatched e hashToken who nowb _ t
    (applyOps_preserves_unmatched e hashToken ops _ _ hz
      (join_ok_unmatched e hashToken a nowa g t hz hd hok))

/-- Witness for C3 (amended): actor 1 burns the white secret of `g0`; after
the intervening operations in which actor 2 claims the black seat and actor
1 resigns, a join with the burnt white secret by the stranger 3 fails
`InvalidToken` and by the seated actor 1 fails `AlreadySeated`. -/
theorem C3_second_join_fails_witness :
    (join_by_token E0 Hash0 3 8
        (applyOps E0 Hash0 [Op.joinOp 2 6 [9], Op.resignOp 1 7]
          (join_by_token E0 Hash0 1 5 g0 [7]).2) [7]).1 =
      .error "Invalid or already-used token" ∧
    (join_by_token E0 Hash0 1 8
        (applyOps E0 Hash0 [Op.joinOp 2 6 [9], Op.resignOp 1 7]
          (join_by_token E0 Hash0 1 5 g0 [7]).2) [7]).1 =
      .error "You already occupy a seat in this game" := by
  have h := C3_second_join_fails E0 Hash0 1 5 g0 [7] (by decide)
    (fun _ => by decide) rfl
  exact ⟨(h [Op.joinOp 2 6 [9], Op.resignOp 1 7] 3 8).2.2 (by decide) (by decide),
    (h [Op.joinOp 2 6 [9], Op.resignOp 1 7] 1 8).2.1 (Or.inl (by decide))⟩

/-- C4: on an ongoing session, `make_move` fails `WrongTurn` ("Not white" /
"Not black") without touching the session when the seat of the side to move
is claimed by someone other than the caller, and when that seat is
unclaimed its result does not depend on the caller at all. -/
theorem C4_turn_ownership {P M S : Type} (e : Engine P M S) (who now : Nat)
    (g : GameInternal P) (mv : ByteStr)
    (hong : g.status = GameStatus.Ongoing) :
    (∀ p, e.turnWhite g.pos = true → g.white = some p → p ≠ who →
       make_move e who now g mv = .ok (.error "Not white", g)) ∧
    (∀ p, e.turnWhite g.pos = false → g.black = some p → p ≠ who →
       make_move e who now g mv = .ok (.error "Not black", g)) ∧
    (e.turnWhite g.pos = true → g.white = none →
       ∀ who2, make_move e who now g mv = make_move e who2 now g mv) ∧
    (e.turnWhite g.pos = false → g.black = none →
       ∀ who2, make_move e who now g mv = make_move e who2 now g mv) := by
  have h1 : g.status.isOngoing = true := by rw [hong]; rfl
  have h1f : ¬g.status.isOngoing = false := by rw [h1]; simp
  refine ⟨?_, ?_, ?_, ?_⟩
  · intro p ht hw hpw
    unfold make_move
    rw [if_neg h1f]
    rw [if_pos ht]
    rw [if_pos (show g.white.isSome = true ∧ g.white ≠ some who by
      rw [hw]; exact ⟨rfl, by simpa using hpw⟩)]
  · intro p ht hb hpw
    unfold make_move
    rw [if_neg h1f]
    rw [if_neg (show ¬e.turnWhite g.pos = true by rw [ht]; simp)]
    rw [if_pos (show g.black.isSome = true ∧ g.black ≠ some who by
      rw [hb]; exact ⟨rfl, by simpa using hpw⟩)]
  · intro ht hw who2
    unfold make_move
    rw [if_neg h1f]
    rw [if_pos ht]
    rw [if_neg (show ¬(g.white.isSome = true ∧ g.white ≠ some who) by
      rw [hw]; simp)]
    rw [if_neg (show ¬(g.white.isSome = true ∧ g.white ≠ some who2) by
      rw [hw]; simp)]
    rw [if_neg h1f]
    rw [if_pos ht]
  · intro ht hb who2
    unfold make_move
    rw [if_neg h1f]
    rw [if_neg (show ¬e.turnWhite g.pos = true by rw [ht]; simp)]
    rw [if_neg (show ¬(g.black.isSome = true ∧ g.black ≠ some who) by
      rw [hb]; simp)]
    rw [if_neg (show ¬(g.black.isSome = true ∧ g.black ≠ some who2) by
      rw [hb]; simp)]
    rw [if_neg h1f]
    rw [if_neg (show ¬e.turnWhite g.pos = true by rw [ht]; simp)]

/-- Witness for C4: on a concrete white-seated session a stranger's move
fails "Not white" unchanged, and on the unseated session the result is
caller-independent. -/
theorem C4_turn_ownership_witness :
    make_move E2 2 7 gWseat uciE2E4 = .ok (.error "Not white", gWseat) ∧
    make_move E2 5 0 gF uciE2E4 = make_move E2 6 0 gF uciE2E4 := by
  exact ⟨(C4_turn_ownership E2 2 7 gWseat uciE2E4 rfl).1 1 rfl rfl (by decide),
    (C4_turn_ownership E2 5 0 gF uciE2E4 rfl).2.2.1 rfl rfl 6⟩

/-- C5: `join_by_token` never looks at the status: on a terminal session an
actor holding neither seat who presents a secret hashing to an unclaimed
seat's stored hash is seated exactly as on the same session with status
`Ongoing`. -/
theorem C5_join_ignores_status {P M S : Type} (e : Engine P M S)
    (hashToken : ByteStr → HashVal) (who now : Nat) (g : GameInternal P)
    (t : ByteStr) (_hterm : g.status.isTerminal = true)
    (hnw : g.white ≠ some who) (hnb : g.black ≠ some who) :
    (g.white = none → hashToken t = g.white_token_hash →
       join_by_token e hashToken who now g t =
         (.ok (to_view e { g with white := some who, white_token_hash := zeroHash,
                                  updated_ns := now }),
          { g with white := some who, white_token_hash := zeroHash,
                   updated_ns := now }) ∧
       join_by_token e hashToken who now { g with status := GameStatus.Ongoing } t =
         (.ok (to_view e { g with status := GameStatus.Ongoing, white := some who,
                                  white_token_hash := zeroHash, updated_ns := now }),
          { g with status := GameStatus.Ongoing, white := some who,
                   white_token_hash := zeroHash, updated_ns := now })) ∧
    (g.black = none → hashToken t ≠ g.white_token_hash →
       hashToken t = g.black_token_hash →
       join_by_token e hashToken who now g t =
         (.ok (to_view e { g with black := some who, black_token_hash := zeroHash,
                                  updated_ns := now }),
          { g with black := some who, black_token_hash := zeroHash,
                   updated_ns := now }) ∧
       join_by_token e hashToken who now { g with status := GameStatus.Ongoing } t =
         (.ok (to_view e { g with status := GameStatus.Ongoing, black := some who,
                                  black_token_hash := zeroHash, updated_ns := now }),
          { g with status := GameStatus.Ongoing, black := some who,
                   black_token_hash := zeroHash, updated_ns := now })) := by
  constructor
  · intro hwn hth
    refine ⟨?_, ?_⟩
    · unfold join_by_token
      rw [if_neg (show ¬(g.white = some who ∨ g.black = some who) by tauto)]
      rw [if_pos hth]
      rw [if_neg (show ¬g.white.isSome = true by rw [hwn]; simp)]
    · unfold join_by_token
      dsimp only
      rw [if_neg (show ¬(g.white = some who ∨ g.black = some who) by tauto)]
      rw [if_pos hth]
      rw [if_neg (show ¬g.white.isSome = true by rw [hwn]; simp)]
  · intro hbn hthw hth
    refine ⟨?_, ?_⟩
    · unfold join_by_token
      rw [if_neg (show ¬(g.white = some who ∨ g.black = some who) by tauto)]
      rw [if_neg hthw]
      rw [if_pos hth]
      rw [if_neg (show ¬g.black.isSome = true by rw [hbn]; simp)]
    · unfold join_by_token
      dsimp only
      rw [if_neg (show ¬(g.white = some who ∨ g.black = some who) by tauto)]
      rw [if_neg hthw]
      rw [if_pos hth]
      rw [if_neg (show ¬g.black.isSome = true by rw [hbn]; simp)]

/-- Witness for C5: joining the concrete stalemated session `gT` with the
white secret succeeds and seats actor 2 while the status stays terminal. -/
theorem C5_join_ignores_status_witness :
    (join_by_token E0 Hash0 2 9 gT [7]).1.isOk = true ∧
    (join_by_token E0 Hash0 2 9 gT [7]).2.white = some 2 ∧
    (join_by_token E0 Hash0 2 9 gT [7]).2.status = GameStatus.Stalemate := by
  have h := (C5_join_ignores_status E0 Hash0 2 9 gT [7] (by decide)
    (by decide) (by decide)).1 rfl rfl
  rw [h.1]
  exact ⟨rfl, rfl, rfl⟩

/-- C9: on an ongoing reachable session, `resign` fails `NotSeated` when
the caller holds neither seat; a seated caller's resignation sets status
`Resigned` with the opposing side as winner (black wins when the white
occupant resigns, white wins when the black occupant resigns). -/
theorem C9_resign_behaviour {P M S : Type} (e : Engine P M S)
    (hashToken : ByteStr → HashVal) (who now : Nat) (g : GameInternal P)
    (hreach : Reachable e hashToken g)
    (hong : g.status = GameStatus.Ongoing) :
    (g.white ≠ some who → g.black ≠ some who →
       resign e who now g = (.error "You are not seated", g)) ∧
    (g.white = some who →
       resign e who now g =
         (.ok (to_view e { g with status := GameStatus.Resigned false,
                                  updated_ns := now }),
          { g with status := GameStatus.Resigned false, updated_ns := now })) ∧
    (g.black = some who →
       resign e who now g =
         (.ok (to_view e { g with status := GameStatus.Resigned true,
                                  updated_ns := now }),
          { g with status := GameStatus.Resigned true, updated_ns := now })) := by
  have h1f : ¬g.status.isOngoing = false := by rw [hong]; simp [GameStatus.isOngoing]
  refine ⟨?_, ?_, ?_⟩
  · intro hnw hnb
    unfold resign
    rw [if_neg h1f]
    rw [if_neg hnw]
    rw [if_neg hnb]
  · intro hw
    unfold resign
    rw [if_neg h1f]
    rw [if_pos hw]
  · intro hb
    have hnw : g.white ≠ some who := by
      intro hww
      exact (reachable_seatsDistinct hreach who who hww hb) rfl
    unfold resign
    rw [if_neg h1f]
    rw [if_neg hnw]
    rw [if_pos hb]

/-- Witness for C9: on the concrete session `gW1` (white seat held by actor
1) resignation by actor 1 yields `Resigned` with black the winner, and
resignation by the unseated actor 3 fails `NotSeated`. -/
theorem C9_resign_behaviour_witness :
    (resign E0 1 9 gW1).2.status = GameStatus.Resigned false ∧
    (resign E0 3 9 gW1).1 = .error "You are not seated" := by
  have hre : Reachable E0 Hash0 gW1 :=
    Reachable.step (Op.joinOp 1 5 [7]) (Reachable.created 1 [7] [9] 0)
  constructor
  · rw [(C9_resign_behaviour E0 Hash0 1 9 gW1 hre rfl).2.1 (by decide)]
  · rw [(C9_resign_behaviour E0 Hash0 3 9 gW1 hre rfl).1 (by decide) (by decide)]

/-- C10: in every reachable session whose two seats are both claimed, the
occupants are distinct actors. -/
theorem C10_seats_never_equal {P M S : Type} (e : Engine P M S)
    (hashToken : ByteStr → HashVal) (g : GameInternal P)
    (hreach : Reachable e hashToken g) (a b : Nat)
    (hw : g.white = some a) (hb : g.black = some b) : a ≠ b :=
  reachable_seatsDistinct hreach a b hw hb

/-- Witness for C10: the concrete doubly-seated session `gWB` holds actors
1 and 2, and they are distinct. -/
theorem C10_seats_never_equal_witness :
    gWB.white = some 1 ∧ gWB.black = some 2 ∧ (1 : Nat) ≠ 2 := by
  have hre : Reachable E0 Hash0 gWB :=
    Reachable.step (Op.joinOp 2 6 [9])
      (Reachable.step (Op.joinOp 1 5 [7]) (Reachable.created 1 [7] [9] 0))
  exact ⟨by decide, by decide,
    C10_seats_never_equal E0 Hash0 gWB hre 1 2 (by decide) (by decide)⟩

/-- C8: after every successful `make_move` the new status is derived from
the new position — `Checkmate` crediting the side that just moved when no
legal move remains and the side to move is in check (using the engine
contract that applying a move flips the side to move), `Stalemate` when no
legal move remains without check, `Ongoing` otherwise — and no operation
ever produces a `Draw` status. -/
theorem C8_status_after_move {P M S : Type} (e : Engine P M S)
    (hashToken : ByteStr → HashVal) (who now : Nat) (g : GameInternal P)
    (mv : ByteStr) (v : GameView) (g2 : GameInternal P)
    (h : make_move e who now g mv = .ok (.ok v, g2))
    (hflip : e.turnWhite g2.pos = !e.turnWhite g.pos) :
    (e.legalMoves g2.pos = [] → e.inCheck g2.pos = true →
       g2.status = GameStatus.Checkmate (e.turnWhite g.pos)) ∧
    (e.legalMoves g2.pos = [] → e.inCheck g2.pos = false →
       g2.status = GameStatus.Stalemate) ∧
    (e.legalMoves g2.pos ≠ [] → g2.status = GameStatus.Ongoing) ∧
    (∀ (g3 : GameInternal P) (op : Op) (rs : String),
       (applyOp e hashToken g3 op).status = g3.status ∨
       (applyOp e hashToken g3 op).status ≠ GameStatus.Draw rs) := by
  obtain ⟨hst, -, -⟩ := make_move_ok_status h
  refine ⟨?_, ?_, ?_, ?_⟩
  · intro hlm hic
    rw [hst]
    unfold compute_status
    rw [if_pos (by rw [hlm]; rfl), if_pos hic, hflip, Bool.not_not]
  · intro hlm hic
    rw [hst]
    unfold compute_status
    rw [if_pos (by rw [hlm]; rfl), if_neg (by rw [hic]; simp)]
  · intro hlm
    rw [hst]
    unfold compute_status
    rw [if_neg (by simpa using hlm)]
  · intro g3 op rs
    cases op with
    | joinOp who3 now3 token3 =>
      exact Or.inl (join_by_token_snd_status e hashToken who3 now3 g3 token3)
    | moveOp who3 now3 mv3 =>
      rcases make_move_cases e who3 now3 g3 mv3 with hp | ⟨msg, hm⟩ | ⟨m, np, _, _, hm⟩
      · exact Or.inl (by simp [applyOp, hp])
      · exact Or.inl (by simp [applyOp, hm])
      · refine Or.inr ?_
        have : (applyOp e hashToken g3 (Op.moveOp who3 now3 mv3)).status =
            compute_status e np := by
          simp [applyOp, hm]
        rw [this]
        exact compute_status_ne_draw e np rs
    | resignOp who3 now3 =>
      rcases resign_cases e who3 now3 g3 with ⟨msg, hr⟩ | ⟨-, -, hr⟩ | ⟨-, -, -, hr⟩
      · exact Or.inl (by simp [applyOp, hr])
      · exact Or.inr (by simp [applyOp, hr])
      · exact Or.inr (by simp [applyOp, hr])

/-- Witness for C8: the concrete move `e2e4` on `gF` is mating, and the
resulting status is `Checkmate` with white (the mover) the winner. -/
theorem C8_status_after_move_witness :
    make_move E2 5 3 gF uciE2E4 = .ok (.ok (to_view E2 gMate), gMate) ∧
    gMate.status = GameStatus.Checkmate true := by
  refine ⟨rfl, ?_⟩
  exact (C8_status_after_move E2 Hash0 5 3 gF uciE2E4 (to_view E2 gMate)
    gMate rfl rfl).1 rfl rfl

/-- C7: `make_move` does not return a result on every input: on the valid
UTF-8 move string "aé34" (bytes 61 C3 A9 33 34) against a fresh ongoing
session it panics — the Rust code slices `&mv[0..2]` although byte index 2
falls inside the two-byte character `é`, which traps instead of returning
`Ok` or `Err`. -/
theorem C7_make_move_traps_on_non_ascii :
    make_move E2 1 0 gF [0x61, 0xC3, 0xA9, 0x33, 0x34] = PanicOr.panics :=
  rfl

/-- C6 counterexample: the coordinate grammar does not accept only strings
of 4–5 characters with a promotion-letter fifth character: the 6-character
string "e2e4xx" is accepted (trailing junk ignored), and so is the
5-character string "e2e4x" whose fifth character is no promotion letter. -/
theorem C6_counterexample :
    parse_uci_to_move E2 true (uciE2E4 ++ [0x78, 0x78]) = .ok (some 0) ∧
    (uciE2E4 ++ [0x78, 0x78]).length = 6 ∧
    parse_uci_to_move E2 true (uciE2E4 ++ [0x78]) = .ok (some 0) ∧
    promoOfBytes [0x78] = none :=
  ⟨rfl, rfl, rfl, rfl⟩

/-- C6 (amended): the coordinate grammar accepts exactly the strings of at
least 4 bytes whose first two characters parse as the origin square and
next two as the destination square of some matching legal move; when the
length is exactly 5 a fifth character `q`/`r`/`b`/`n` (case-insensitive)
forces the move's promotion to equal it, while any other fifth character or
extra trailing bytes are ignored, in which case the move must carry no
promotion or the queen promotion (the default when promotion is required).
Soundness holds for every accepted string; acceptance holds whenever the
slice boundaries are character boundaries. -/
theorem C6_coordinate_grammar {P M S : Type} (e : Engine P M S) (pos : P)
    (mv : ByteStr) :
    (∀ m, parse_uci_to_move e pos mv = .ok (some m) →
       4 ≤ mv.length ∧ m ∈ e.legalMoves pos ∧
       (∃ f, e.squareFromStr (mv.take 2) = some f ∧ e.moveFrom m = some f) ∧
       (∃ tq, e.squareFromStr ((mv.drop 2).take 2) = some tq ∧
          e.moveTo m = tq) ∧
       promoMatches e (uciPromo mv) m) ∧
    (4 ≤ mv.length → isCharBoundary mv 2 = true → isCharBoundary mv 4 = true →
       ∀ f tq, e.squareFromStr (mv.take 2) = some f →
         e.squareFromStr ((mv.drop 2).take 2) = some tq →
         (∃ m0 ∈ e.legalMoves pos, e.moveFrom m0 = some f ∧
            e.moveTo m0 = tq ∧ promoMatches e (uciPromo mv) m0) →
         ∃ m, parse_uci_to_move e pos mv = .ok (some m)) := by
  constructor
  · intro m h
    unfold parse_uci_to_move at h
    by_cases h4 : mv.length < 4
    · rw [if_pos h4] at h
      simp at h
    · rw [if_neg h4] at h
      refine ⟨by omega, ?_⟩
      cases hs1 : sliceBytes mv 0 2 with
      | panics => rw [hs1] at h; cases h
      | ok s1 =>
        rw [hs1] at h
        dsimp only at h
        obtain ⟨hs1v, -, -, hb2⟩ := sliceBytes_ok hs1
        cases hq1 : e.squareFromStr s1 with
        | none => rw [hq1] at h; simp at h
        | some f =>
          rw [hq1] at h
          dsimp only at h
          cases hs2 : sliceBytes mv 2 4 with
          | panics => rw [hs2] at h; cases h
          | ok s2 =>
            rw [hs2] at h
            dsimp only at h
            obtain ⟨hs2v, -, -, hb4⟩ := sliceBytes_ok hs2
            cases hq2 : e.squareFromStr s2 with
            | none => rw [hq2] at h; simp at h
            | some tq =>
              rw [hq2] at h
              dsimp only at h
              by_cases h5 : mv.length = 5
              · rw [if_pos h5] at h
                cases hs3 : sliceBytes mv 4 5 with
                | panics => rw [hs3] at h; cases h
                | ok s3 =>
                  rw [hs3] at h
                  dsimp only at h
                  obtain ⟨hs3v, -, -, -⟩ := sliceBytes_ok hs3
                  injection h with h
                  obtain ⟨hmem, hf, ht, hpm⟩ := findUci_sound h
                  refine ⟨hmem, ⟨f, ?_, hf⟩, ⟨tq, ?_, ht⟩, ?_⟩
                  · rw [← hq1, hs1v]
                    simp
                  · rw [← hq2, hs2v]
                  · unfold uciPromo
                    rw [if_pos h5]
                    rw [show (mv.drop 4).take 1 = s3 from by rw [hs3v]]
                    exact hpm
              · rw [if_neg h5] at h
                dsimp only at h
                injection h with h
                obtain ⟨hmem, hf, ht, hpm⟩ := findUci_sound h
                refine ⟨hmem, ⟨f, ?_, hf⟩, ⟨tq, ?_, ht⟩, ?_⟩
                · rw [← hq1, hs1v]
                  simp
                · rw [← hq2, hs2v]
                · unfold uciPromo
                  rw [if_neg h5]
                  exact hpm
  · intro h4 hb2 hb4 f tq hf ht hex
    unfold parse_uci_to_move
    rw [if_neg (by omega)]
    rw [sliceBytes_eq_ok (by omega) (isCharBoundary_zero mv) hb2]
    dsimp only
    rw [show e.squareFromStr ((mv.drop 0).take (2 - 0)) = some f from by
      simpa using hf]
    dsimp only
    rw [sliceBytes_eq_ok (by omega) hb2 hb4]
    dsimp only
    rw [show e.squareFromStr ((mv.drop 2).take (4 - 2)) = some tq from by
      simpa using ht]
    dsimp only
    by_cases h5 : mv.length = 5
    · rw [if_pos h5]
      rw [sliceBytes_eq_ok (by omega) hb4 (by rw [← h5]; exact isCharBoundary_length mv)]
      dsimp only
      have hex5 : ∃ m0 ∈ e.legalMoves pos, e.moveFrom m0 = some f ∧
          e.moveTo m0 = tq ∧
          promoMatches e (promoOfBytes ((mv.drop 4).take (5 - 4))) m0 := by
        rw [show promoOfBytes ((mv.drop 4).take (5 - 4)) = uciPromo mv from by
          unfold uciPromo
          rw [if_pos h5]]
        exact hex
      obtain ⟨m, hm⟩ := findUci_complete hex5
      exact ⟨m, by rw [hm]⟩
    · rw [if_neg h5]
      dsimp only
      have hexn : ∃ m0 ∈ e.legalMoves pos, e.moveFrom m0 = some f ∧
          e.moveTo m0 = tq ∧ promoMatches e none m0 := by
        rw [show (none : Option Role) = uciPromo mv from by
          unfold uciPromo
          rw [if_neg h5]]
        exact hex
      obtain ⟨m, hm⟩ := findUci_complete hexn
      exact ⟨m, by rw [hm]⟩

/-- Witness for C6 (amended): the 5-byte string "e2e4x" satisfies the
acceptance conditions over `E2` and is indeed accepted. -/
theorem C6_coordinate_grammar_witness :
    ∃ m, parse_uci_to_move E2 true (uciE2E4 ++ [0x78]) = .ok (some m) := by
  refine (C6_coordinate_grammar E2 true (uciE2E4 ++ [0x78])).2
    (by decide) (by decide) (by decide) 12 28 (by decide) (by decide) ?_
  exact ⟨0, by decide, rfl, rfl, Or.inl rfl⟩

end ICChess
